import Mathlib

/-!
Verification of the template language, value resolver, renderer and
differential refresh controller of the mergneh repository (src/mpd.rs).

Text is modelled as `List Char` (the Rust code only ever slices at the
one-byte delimiter characters `{`, `}`, so byte positions and char
positions coincide at every slicing point).

External collaborators are modelled abstractly:
* the chrono strftime compiler (`StrftimeItems::new(..).parse_to_owned()`)
  is an opaque validity test `chronoOk : List Char → Bool`; a compiled
  pattern is represented by its source text (the only pattern the claims
  compare is the default `"%M:%S"`, where this is faithful);
* chrono's `DelayedFormat` rendering of a duration is an opaque
  `fmtDur : List Char → MDuration → Option (List Char)` (`none` models the
  "Unsupported time specifier" render error).
-/

deriving instance DecidableEq for Except

namespace Mergneh

/-- Parse errors of `MpdFormatParseError` (src/mpd.rs, lines 194-201).
Payloads of the external chrono / integer parse errors are not modelled. -/
inductive PErr where
  | UnknownPlaceholder : List Char → PErr
  | RedundantFormat : List Char → PErr
  | DurationParseError : PErr
  | PadParseError : PErr
  | UnmatchedParenthesis : PErr
deriving DecidableEq, Repr

/-- Placeholder entries of the `Placeholder` enum (src/mpd.rs, lines 116-135).
`TotalTime` / `ElapsedTime` carry the source text of the compiled
strftime pattern. -/
inductive Ph where
  | Str : List Char → Ph
  | Artist : Ph
  | AlbumArtist : Ph
  | Album : Ph
  | Title : Ph
  | Filename : Ph
  | Date : Ph
  | TotalTime : List Char → Ph
  | ElapsedTime : List Char → Ph
  | Volume : Ph
  | SongPosition : Ph
  | QueueLength : Ph
  | StateIcon : Nat → Ph
  | ConsumeIcon : Nat → Ph
  | RandomIcon : Nat → Ph
  | RepeatIcon : Nat → Ph
  | SingleIcon : Nat → Ph
deriving DecidableEq, Repr

/-- Rust `str::split_once(':')`: split at the first colon, if any. -/
def splitOnceColon : List Char → Option (List Char × List Char)
  | [] => none
  | c :: r =>
    if c = ':' then some ([], r)
    else (splitOnceColon r).map (fun p => (c :: p.1, p.2))

/-- Decimal digit value of a character, `none` for non-digits. -/
def digitVal (c : Char) : Option Nat :=
  if '0' ≤ c ∧ c ≤ '9' then some (c.toNat - '0'.toNat) else none

/-- Accumulate decimal digits; `none` on the first non-digit. -/
def parseDigits : Nat → List Char → Option Nat
  | acc, [] => some acc
  | acc, c :: r =>
    match digitVal c with
    | some d => parseDigits (acc * 10 + d) r
    | none => none

/-- Rust `str::parse::<usize>()` on a 64-bit target: an optional leading
`+`, then one or more ASCII digits, failing on overflow past `2 ^ 64 - 1`. -/
def parseUsize (s : List Char) : Option Nat :=
  let s' := match s with
    | '+' :: r => r
    | _ => s
  match s' with
  | [] => none
  | _ =>
    match parseDigits 0 s' with
    | some n => if n < 2 ^ 64 then some n else none
    | none => none

/-- Is this name one of the five icon placeholders taking a pad count
(the grouped match arm at src/mpd.rs line 480)? -/
def isIconName (name : List Char) : Bool :=
  name = "consumeIcon".toList || name = "repeatIcon".toList ||
    name = "stateIcon".toList || name = "singleIcon".toList ||
    name = "randomIcon".toList

/-- Resolve one placeholder spec (the text between `{` and `}`) exactly as
the body of the push at src/mpd.rs lines 467-523: split at the first `:`;
with an argument, match `date` / `elapsedTime` / `totalTime` / the five
icons and otherwise fail with `RedundantFormat`; with no argument, look the
name up in the fixed table and otherwise fail with `UnknownPlaceholder`. -/
def resolveSpec (chronoOk : List Char → Bool) (spec : List Char) : Except PErr Ph :=
  match splitOnceColon spec with
  | some (name, arg) =>
    if name = "date".toList then .ok .Date
    else if name = "elapsedTime".toList then
      if chronoOk arg then .ok (.ElapsedTime arg) else .error .DurationParseError
    else if name = "totalTime".toList then
      if chronoOk arg then .ok (.TotalTime arg) else .error .DurationParseError
    else if isIconName name then
      match parseUsize arg with
      | none => .error .PadParseError
      | some pad =>
        if name = "consumeIcon".toList then .ok (.ConsumeIcon pad)
        else if name = "repeatIcon".toList then .ok (.RepeatIcon pad)
        else if name = "stateIcon".toList then .ok (.StateIcon pad)
        else if name = "singleIcon".toList then .ok (.SingleIcon pad)
        else .ok (.RandomIcon pad)
    else .error (.RedundantFormat name)
  | none =>
    if spec = "album".toList then .ok .Album
    else if spec = "albumArtist".toList then .ok .AlbumArtist
    else if spec = "artist".toList then .ok .Artist
    else if spec = "consumeIcon".toList then .ok (.ConsumeIcon 0)
    else if spec = "date".toList then .ok .Date
    else if spec = "elapsedTime".toList then .ok (.ElapsedTime "%M:%S".toList)
    else if spec = "filename".toList then .ok .Filename
    else if spec = "queueLength".toList then .ok .QueueLength
    else if spec = "randomIcon".toList then .ok (.RandomIcon 0)
    else if spec = "repeatIcon".toList then .ok (.RepeatIcon 0)
    else if spec = "singleIcon".toList then .ok (.SingleIcon 0)
    else if spec = "songPosition".toList then .ok .SongPosition
    else if spec = "stateIcon".toList then .ok (.StateIcon 0)
    else if spec = "title".toList then .ok .Title
    else if spec = "totalTime".toList then .ok (.TotalTime "%M:%S".toList)
    else if spec = "volume".toList then .ok .Volume
    else .error (.UnknownPlaceholder spec)

/-- Flush the literal accumulator as a single entry when non-empty
(src/mpd.rs lines 454-457 and 526-528). -/
def flushRaw (raw : List Char) : List Ph :=
  if raw = [] then [] else [.Str raw]

mutual

/-- The scanner of `MpdFormatter::from_str` (src/mpd.rs lines 424-530) in
literal mode, with `raw` the literal accumulator.  The Rust loop jumps with
`find(['{', '}'])`; accumulating the non-delimiter characters one at a time
is the same scan.  An escaped pair pushes one copy of the brace; a lone `}`
(or `}` at the end) is `UnmatchedParenthesis`; an opening `{` flushes the
accumulator and switches to the placeholder-body scan. -/
def scanFmt (chronoOk : List Char → Bool) (raw : List Char) :
    List Char → Except PErr (List Ph)
  | [] => .ok (flushRaw raw)
  | '}' :: '}' :: r => scanFmt chronoOk (raw ++ ['}']) r
  | '}' :: _ => .error .UnmatchedParenthesis
  | '{' :: '{' :: r => scanFmt chronoOk (raw ++ ['{']) r
  | '{' :: r => scanBody chronoOk (flushRaw raw) [] r
  | c :: r => scanFmt chronoOk (raw ++ [c]) r

/-- The placeholder-body scan of `MpdFormatter::from_str` (src/mpd.rs lines
459-466): `done` is the program already emitted, `spec` the body text
accumulated so far.  A nested `{` or the end of input is
`UnmatchedParenthesis`; the closing `}` resolves the spec and, on success,
continues the literal-mode scan behind it. -/
def scanBody (chronoOk : List Char → Bool) (done : List Ph) (spec : List Char) :
    List Char → Except PErr (List Ph)
  | [] => .error .UnmatchedParenthesis
  | '{' :: _ => .error .UnmatchedParenthesis
  | '}' :: r =>
    match resolveSpec chronoOk spec with
    | .error e => .error e
    | .ok ph => (scanFmt chronoOk [] r).map (fun l => done ++ ph :: l)
  | c :: r => scanBody chronoOk done (spec ++ [c]) r

end

/-- `MpdFormatter::from_str` (src/mpd.rs lines 424-530). -/
def parseFmt (chronoOk : List Char → Bool) (s : List Char) : Except PErr (List Ph) :=
  scanFmt chronoOk [] s

/-- Re-escape one literal character for `Display` (src/mpd.rs lines
384-390): braces are doubled, everything else is kept as is. -/
def escapeChar (c : Char) : List Char :=
  if c = '{' ∨ c = '}' then [c, c] else [c]

/-- Re-escape a literal entry for `Display`.  The Rust code splits the text
with `split_inclusive(['{', '}'])` and doubles the final brace of each
part, which emits every character once and every brace twice. -/
def escapeStr : List Char → List Char
  | [] => []
  | c :: r => escapeChar c ++ escapeStr r

/-- Canonical text of one program entry, as written by `impl Display for
MpdFormatter` (src/mpd.rs lines 380-419): literals are re-escaped, every
other entry is rendered as its bare name in braces, dropping arguments. -/
def phChars : Ph → List Char
  | .Str s => escapeStr s
  | .Album => '{' :: "album".toList ++ ['}']
  | .AlbumArtist => '{' :: "albumArtist".toList ++ ['}']
  | .Artist => '{' :: "artist".toList ++ ['}']
  | .ConsumeIcon _ => '{' :: "consumeIcon".toList ++ ['}']
  | .Date => '{' :: "date".toList ++ ['}']
  | .ElapsedTime _ => '{' :: "elapsedTime".toList ++ ['}']
  | .Filename => '{' :: "filename".toList ++ ['}']
  | .QueueLength => '{' :: "queueLength".toList ++ ['}']
  | .RandomIcon _ => '{' :: "randomIcon".toList ++ ['}']
  | .RepeatIcon _ => '{' :: "repeatIcon".toList ++ ['}']
  | .SingleIcon _ => '{' :: "singleIcon".toList ++ ['}']
  | .SongPosition => '{' :: "songPosition".toList ++ ['}']
  | .StateIcon _ => '{' :: "stateIcon".toList ++ ['}']
  | .Title => '{' :: "title".toList ++ ['}']
  | .TotalTime _ => '{' :: "totalTime".toList ++ ['}']
  | .Volume => '{' :: "volume".toList ++ ['}']

/-- The serializer `impl Display for MpdFormatter` over a whole program. -/
def serializeFmt : List Ph → List Char
  | [] => []
  | ph :: r => phChars ph ++ serializeFmt r

/-- Playback state (the `mpd::State` enum consumed by src/mpd.rs). -/
inductive MpdState where
  | stop : MpdState
  | play : MpdState
  | pause : MpdState
deriving DecidableEq, Repr

/-- Rust `std::time::Duration`: whole seconds and sub-second nanoseconds. -/
structure MDuration where
  secs : Nat
  nanos : Nat
deriving DecidableEq, Repr

/-- Queue place of the current song (the `mpd::song::QueuePlace` struct):
a queue id and a position. -/
structure QueuePlace where
  id : Nat
  pos : Nat
deriving DecidableEq, Repr

/-- The fields of `mpd::Song` read by src/mpd.rs: optional artist and
title, the file name, and the free-form tag list. -/
structure Song where
  artist : Option (List Char)
  title : Option (List Char)
  file : List Char
  tags : List (List Char × List Char)
deriving DecidableEq, Repr

/-- The fields of `mpd::Status` read by src/mpd.rs.  `rep` models the
`repeat` toggle (that word is reserved in Lean). -/
structure Status where
  volume : Int
  elapsed : Option MDuration
  duration : Option MDuration
  song : Option QueuePlace
  queueLen : Nat
  state : MpdState
  consume : Bool
  random : Bool
  rep : Bool
  single : Bool
deriving DecidableEq, Repr

/-- Tag lookup as performed by `Placeholder::get` (src/mpd.rs lines
151-158): the tag list is collected into a `HashMap` (later duplicates
overwrite earlier ones) and the key is removed from it; with no current
song the map is empty. -/
def tagLookup (song : Option Song) (key : List Char) : Option (List Char) :=
  match song with
  | none => none
  | some s => (s.tags.reverse.find? (fun p => p.1 == key)).map (fun p => p.2)

/-- Resolved per-placeholder values, the `PlaceholderValue` enum
(src/mpd.rs lines 137-147).  `optDuration` pairs the optional duration
with the pattern of its placeholder, as the Rust variant does. -/
inductive PhValue where
  | str : List Char → PhValue
  | optStr : Option (List Char) → PhValue
  | volume : Int → PhValue
  | optDuration : Option MDuration → List Char → PhValue
  | optQueuePlace : Option QueuePlace → PhValue
  | len : Nat → PhValue
  | bool : Bool → PhValue
  | state : MpdState → Nat → PhValue
deriving DecidableEq, Repr

/-- The value resolver `Placeholder::get` (src/mpd.rs lines 150-188). -/
def phGet (ph : Ph) (song : Option Song) (status : Status) : PhValue :=
  match ph with
  | .Str s => .str s
  | .Artist => .optStr (song.bind (fun s => s.artist))
  | .AlbumArtist => .optStr (tagLookup song "AlbumArtist".toList)
  | .Album => .optStr (tagLookup song "Album".toList)
  | .Title => .optStr (song.bind (fun s => s.title))
  | .Filename => .optStr (song.map (fun s => s.file))
  | .Date => .optStr (tagLookup song "Date".toList)
  | .Volume => .volume status.volume
  | .ElapsedTime pat => .optDuration status.elapsed pat
  | .TotalTime pat => .optDuration status.duration pat
  | .SongPosition => .optQueuePlace status.song
  | .QueueLength => .len status.queueLen
  | .StateIcon pad => .state status.state pad
  | .ConsumeIcon _ => .bool status.consume
  | .RandomIcon _ => .bool status.random
  | .RepeatIcon _ => .bool status.rep
  | .SingleIcon _ => .bool status.single

/-- Playback-state icon table `StateStatusIcons` (src/mpd.rs lines 38-53). -/
structure StateStatusIcons where
  play : Char
  pause : Char
  stop : Char
deriving DecidableEq, Repr

/-- Icon for a playback state (src/mpd.rs lines 46-52). -/
def StateStatusIcons.getIcon (i : StateStatusIcons) : MpdState → Char
  | .stop => i.stop
  | .play => i.play
  | .pause => i.pause

/-- Toggle icon pair `StatusIcons` (src/mpd.rs lines 55-59): an enabled
character and an optional disabled character. -/
structure StatusIcons where
  enabled : Char
  disabled : Option Char
deriving DecidableEq, Repr

/-- `StatusIcons::get_icon` (src/mpd.rs lines 62-68). -/
def StatusIcons.getIcon (i : StatusIcons) (state : Bool) : Option Char :=
  if state then some i.enabled else i.disabled

/-- `StatusIcons::write` (src/mpd.rs lines 70-77): the icon followed by
`pad` spaces when there is one, nothing at all otherwise. -/
def StatusIcons.writeIcon (i : StatusIcons) (state : Bool) (pad : Nat) : List Char :=
  match i.getIcon state with
  | some c => c :: List.replicate pad ' '
  | none => []

/-- The full icon configuration `StatusIconsSet` (src/mpd.rs lines 79-86). -/
structure StatusIconsSet where
  state : StateStatusIcons
  consume : StatusIcons
  random : StatusIcons
  rep : StatusIcons
  single : StatusIcons
deriving DecidableEq, Repr

/-- `StatusIconsSet::write_bool` (src/mpd.rs lines 105-113). -/
def StatusIconsSet.writeBool (icons : StatusIconsSet) (ph : Ph) (value : Bool) :
    List Char :=
  match ph with
  | .ConsumeIcon pad => icons.consume.writeIcon value pad
  | .RandomIcon pad => icons.random.writeIcon value pad
  | .RepeatIcon pad => icons.rep.writeIcon value pad
  | .SingleIcon pad => icons.single.writeIcon value pad
  | _ => []

/-- Decimal text of an unsigned value. -/
def natChars (n : Nat) : List Char := (toString n).toList

/-- Decimal text of a signed value. -/
def intChars (i : Int) : List Char := (toString i).toList

/-- Render-time errors of `MpdFormatter::format`: the only failure is
chrono rejecting a compiled pattern at format time ("Unsupported time
specifier", src/mpd.rs line 359). -/
inductive FmtErr where
  | unsupportedSpecifier : FmtErr
deriving DecidableEq, Repr

/-- Rendering of one placeholder, the match of `MpdFormatter::format`
(src/mpd.rs lines 340-370).  `fmtDur` stands for chrono's rendering of a
duration (converted to a time of day) through a compiled pattern. -/
def formatPh (icons : StatusIconsSet) (fmtDur : List Char → MDuration → Option (List Char))
    (song : Option Song) (status : Status) (dflt : List Char) (ph : Ph) :
    Except FmtErr (List Char) :=
  match phGet ph song status with
  | .str s => .ok s
  | .optStr s => .ok (s.getD dflt)
  | .volume v => .ok (intChars v)
  | .len l => .ok (natChars l)
  | .optDuration (some d) pat =>
    match fmtDur pat d with
    | some out => .ok out
    | none => .error .unsupportedSpecifier
  | .optDuration none _ => .ok dflt
  | .optQueuePlace (some qp) => .ok (natChars qp.id)
  | .optQueuePlace none => .ok dflt
  | .bool b => .ok (icons.writeBool ph b)
  | .state st pad => .ok (icons.state.getIcon st :: List.replicate pad ' ')

/-- `MpdFormatter::format` (src/mpd.rs lines 332-373): render the program
entry by entry, concatenating the output. -/
def formatFmt (icons : StatusIconsSet) (fmtDur : List Char → MDuration → Option (List Char))
    (song : Option Song) (status : Status) (dflt : List Char) :
    List Ph → Except FmtErr (List Char)
  | [] => .ok []
  | ph :: r =>
    match formatPh icons fmtDur song status dflt ph with
    | .error e => .error e
    | .ok s =>
      match formatFmt icons fmtDur song status dflt r with
      | .error e => .error e
      | .ok rest => .ok (s ++ rest)

/-- Has any placeholder of the program changed its resolved value between
the two snapshots?  This is the `any` of the change detection in
`MpdSource::get` (src/mpd.rs lines 270-276). -/
def sectionChanged (fmt : List Ph) (oldSong : Option Song) (oldStatus : Status)
    (newSong : Option Song) (newStatus : Status) : Bool :=
  fmt.any (fun ph => phGet ph oldSong oldStatus != phGet ph newSong newStatus)

/-- Result of one tick of `MpdSource::get` (src/mpd.rs lines 255-298).
Modelled from the spec: the `ContentChange` flag set lives in
`crate::text_source`, which is not under src/; following the spec's tick
interface it is modelled as the three booleans `preChanged`, `sufChanged`,
`runChanged`.  The three buffers are the `&mut String` arguments after the
call; `song` and `status` are the stored snapshot after the call. -/
structure TickResult where
  preBuf : List Char
  sufBuf : List Char
  runBuf : List Char
  preChanged : Bool
  sufChanged : Bool
  runChanged : Bool
  song : Option Song
  status : Status
deriving DecidableEq, Repr

/-- `MpdSource::get` (src/mpd.rs lines 255-298) with the snapshot fetch
made explicit: first the three change flags are computed against the old
(stored) snapshot, then each changed section's buffer is cleared and
re-rendered from the new snapshot (a render error propagates, as `?`
does), and finally the new snapshot replaces the stored one
unconditionally. -/
def mpdGet (icons : StatusIconsSet) (fmtDur : List Char → MDuration → Option (List Char))
    (dflt : List Char) (preFmt sufFmt runFmt : List Ph)
    (oldSong : Option Song) (oldStatus : Status)
    (newSong : Option Song) (newStatus : Status)
    (preBuf sufBuf runBuf : List Char) : Except FmtErr TickResult :=
  let pc := sectionChanged preFmt oldSong oldStatus newSong newStatus
  let sc := sectionChanged sufFmt oldSong oldStatus newSong newStatus
  let rc := sectionChanged runFmt oldSong oldStatus newSong newStatus
  match (if pc then formatFmt icons fmtDur newSong newStatus dflt preFmt else .ok preBuf) with
  | .error e => .error e
  | .ok preB =>
    match (if sc then formatFmt icons fmtDur newSong newStatus dflt sufFmt else .ok sufBuf) with
    | .error e => .error e
    | .ok sufB =>
      match (if rc then formatFmt icons fmtDur newSong newStatus dflt runFmt else .ok runBuf) with
      | .error e => .error e
      | .ok runB => .ok ⟨preB, sufB, runB, pc, sc, rc, newSong, newStatus⟩

/-- The four boolean toggle placeholders of the claim about disabled
icons. -/
inductive Toggle where
  | consume : Toggle
  | random : Toggle
  | rep : Toggle
  | single : Toggle
deriving DecidableEq, Repr

/-- The placeholder entry of a toggle with a pad count. -/
def Toggle.ph : Toggle → Nat → Ph
  | .consume, pad => .ConsumeIcon pad
  | .random, pad => .RandomIcon pad
  | .rep, pad => .RepeatIcon pad
  | .single, pad => .SingleIcon pad

/-- The icon pair configured for a toggle. -/
def Toggle.iconsOf (icons : StatusIconsSet) : Toggle → StatusIcons
  | .consume => icons.consume
  | .random => icons.random
  | .rep => icons.rep
  | .single => icons.single

/-- The snapshot field read by a toggle. -/
def Toggle.value (status : Status) : Toggle → Bool
  | .consume => status.consume
  | .random => status.random
  | .rep => status.rep
  | .single => status.single

/-- The nine optional-valued placeholders of the claim about default
text. -/
inductive OptPh where
  | artist : OptPh
  | albumArtist : OptPh
  | album : OptPh
  | title : OptPh
  | filename : OptPh
  | date : OptPh
  | elapsedTime : OptPh
  | totalTime : OptPh
  | songPosition : OptPh
deriving DecidableEq, Repr

/-- The placeholder entry of an optional-valued placeholder (`pat` is the
compiled pattern of the two duration placeholders, ignored elsewhere). -/
def OptPh.toPh (pat : List Char) : OptPh → Ph
  | .artist => .Artist
  | .albumArtist => .AlbumArtist
  | .album => .Album
  | .title => .Title
  | .filename => .Filename
  | .date => .Date
  | .elapsedTime => .ElapsedTime pat
  | .totalTime => .TotalTime pat
  | .songPosition => .SongPosition

/-- The corresponding snapshot field is absent. -/
def OptPh.absent (song : Option Song) (status : Status) : OptPh → Prop
  | .artist => song.bind (fun s => s.artist) = none
  | .albumArtist => tagLookup song "AlbumArtist".toList = none
  | .album => tagLookup song "Album".toList = none
  | .title => song.bind (fun s => s.title) = none
  | .filename => song = none
  | .date => tagLookup song "Date".toList = none
  | .elapsedTime => status.elapsed = none
  | .totalTime => status.duration = none
  | .songPosition => status.song = none

/-! Basic lemmas about the parser. -/

theorem exceptMap_error {ε α β : Type} (f : α → β) (x : Except ε α) (e : ε) :
    x.map f = .error e ↔ x = .error e := by
  cases x <;> simp [Except.map]

theorem splitOnceColon_not_mem {xs : List Char} (h : ':' ∉ xs) :
    splitOnceColon xs = none := by
  induction xs with
  | nil => rfl
  | cons c r ih =>
    simp only [List.mem_cons, not_or] at h
    simp [splitOnceColon, Ne.symm h.1, ih h.2]

theorem splitOnceColon_append {xs : List Char} (ys : List Char) (h : ':' ∉ xs) :
    splitOnceColon (xs ++ ':' :: ys) = some (xs, ys) := by
  induction xs with
  | nil => simp [splitOnceColon]
  | cons c r ih =>
    simp only [List.mem_cons, not_or] at h
    simp [splitOnceColon, Ne.symm h.1, ih h.2]

theorem scanFmt_litChar {k : List Char → Bool} {c : Char} (raw r : List Char)
    (h1 : c ≠ '{') (h2 : c ≠ '}') :
    scanFmt k raw (c :: r) = scanFmt k (raw ++ [c]) r := by
  simp [scanFmt, h1, h2]

theorem scanFmt_closeOther {k : List Char → Bool} {c : Char} (raw r : List Char)
    (h : c ≠ '}') :
    scanFmt k raw ('}' :: c :: r) = .error .UnmatchedParenthesis := by
  simp [scanFmt, h]

theorem scanFmt_openOther {k : List Char → Bool} {c : Char} (raw r : List Char)
    (h : c ≠ '{') :
    scanFmt k raw ('{' :: c :: r) = scanBody k (flushRaw raw) [] (c :: r) := by
  simp [scanFmt, h]

theorem scanBody_litChar {k : List Char → Bool} {c : Char} (done : List Ph)
    (spec r : List Char) (h1 : c ≠ '{') (h2 : c ≠ '}') :
    scanBody k done spec (c :: r) = scanBody k done (spec ++ [c]) r := by
  simp [scanBody, h1, h2]

theorem scanBody_close {k : List Char → Bool} (done : List Ph) (spec r : List Char) :
    scanBody k done spec ('}' :: r) =
      match resolveSpec k spec with
      | .error e => .error e
      | .ok ph => (scanFmt k [] r).map (fun l => done ++ ph :: l) := rfl

/-- Scanning a delimiter-free stretch of a placeholder body just moves it
into the spec accumulator. -/
theorem scanBody_noDelim {k : List Char → Bool} (done : List Ph)
    {spec : List Char} (acc r : List Char) (h : ∀ c ∈ spec, c ≠ '{' ∧ c ≠ '}') :
    scanBody k done acc (spec ++ r) = scanBody k done (acc ++ spec) r := by
  induction spec generalizing acc with
  | nil => simp
  | cons c s ih =>
    obtain ⟨h1, h2⟩ := h c (List.mem_cons_self c s)
    rw [List.cons_append, scanBody_litChar done acc (s ++ r) h1 h2,
      ih (acc ++ [c]) (fun x hx => h x (List.mem_cons_of_mem c hx))]
    simp

/-- Parsing a template that is one placeholder with a delimiter-free body
resolves that body. -/
theorem parse_single {k : List Char → Bool} (spec : List Char)
    (h : ∀ c ∈ spec, c ≠ '{' ∧ c ≠ '}') :
    parseFmt k ('{' :: spec ++ ['}']) = (resolveSpec k spec).map (fun ph => [ph]) := by
  have hb : scanFmt k [] ('{' :: spec ++ ['}']) = scanBody k [] [] (spec ++ ['}']) := by
    cases spec with
    | nil => rfl
    | cons c s =>
      obtain ⟨h1, _⟩ := h c (List.mem_cons_self c s)
      rw [List.cons_append, List.cons_append, scanFmt_openOther _ _ h1]
      rfl
  rw [parseFmt, hb, scanBody_noDelim [] [] ['}'] h, List.nil_append, scanBody_close]
  cases resolveSpec k spec <;> rfl

/-- The eight spec names of the argument branch of `resolveSpec`
(the names matched at src/mpd.rs lines 469-492). -/
def argNames : List (List Char) :=
  ["date".toList, "elapsedTime".toList, "totalTime".toList, "consumeIcon".toList,
    "repeatIcon".toList, "stateIcon".toList, "singleIcon".toList, "randomIcon".toList]

/-- The sixteen bare names of the fixed name table
(src/mpd.rs lines 497-516). -/
def nameTable : List (List Char) :=
  ["album".toList, "albumArtist".toList, "artist".toList, "consumeIcon".toList,
    "date".toList, "elapsedTime".toList, "filename".toList, "queueLength".toList,
    "randomIcon".toList, "repeatIcon".toList, "singleIcon".toList, "songPosition".toList,
    "stateIcon".toList, "title".toList, "totalTime".toList, "volume".toList]

theorem isIconName_eq_false {name : List Char}
    (h4 : name ≠ "consumeIcon".toList) (h5 : name ≠ "repeatIcon".toList)
    (h6 : name ≠ "stateIcon".toList) (h7 : name ≠ "singleIcon".toList)
    (h8 : name ≠ "randomIcon".toList) : isIconName name = false := by
  simp only [isIconName, Bool.or_eq_false_iff, decide_eq_false_iff_not]
  exact ⟨⟨⟨⟨h4, h5⟩, h6⟩, h7⟩, h8⟩

/-- A spec with an argument whose name is not in the argument branch fails
with `RedundantFormat`, whether or not the name is a known placeholder. -/
theorem resolveSpec_colon_notArg {k : List Char → Bool} {name : List Char} (arg : List Char)
    (h : ':' ∉ name) (hn : name ∉ argNames) :
    resolveSpec k (name ++ ':' :: arg) = .error (.RedundantFormat name) := by
  simp only [argNames, List.mem_cons, not_or, List.not_mem_nil] at hn
  obtain ⟨h1, h2, h3, h4, h5, h6, h7, h8, -⟩ := hn
  unfold resolveSpec
  rw [splitOnceColon_append arg h]
  dsimp only
  rw [if_neg h1, if_neg h2, if_neg h3,
    if_neg (by simp [isIconName_eq_false h4 h5 h6 h7 h8])]

/-- The spec `date:<arg>` resolves to the bare `Date` placeholder, the
argument being silently discarded (src/mpd.rs line 469). -/
theorem resolveSpec_date_colon {k : List Char → Bool} (arg : List Char) :
    resolveSpec k ("date".toList ++ ':' :: arg) = .ok .Date := by
  unfold resolveSpec
  rw [splitOnceColon_append arg (by decide)]
  dsimp only
  rw [if_pos rfl]

/-- A colon-free spec outside the fixed name table fails with
`UnknownPlaceholder`. -/
theorem resolveSpec_bare_unknown {k : List Char → Bool} {spec : List Char}
    (hc : ':' ∉ spec) (hn : spec ∉ nameTable) :
    resolveSpec k spec = .error (.UnknownPlaceholder spec) := by
  simp only [nameTable, List.mem_cons, not_or, List.not_mem_nil] at hn
  obtain ⟨h1, h2, h3, h4, h5, h6, h7, h8, h9, h10, h11, h12, h13, h14, h15, h16, -⟩ := hn
  unfold resolveSpec
  rw [splitOnceColon_not_mem hc]
  dsimp only
  rw [if_neg h1, if_neg h2, if_neg h3, if_neg h4, if_neg h5, if_neg h6, if_neg h7,
    if_neg h8, if_neg h9, if_neg h10, if_neg h11, if_neg h12, if_neg h13, if_neg h14,
    if_neg h15, if_neg h16]

/-- Delimiter-freeness of a `name:arg` spec from that of its parts. -/
theorem noDelim_spec {name arg : List Char} (hn : ∀ c ∈ name, c ≠ '{' ∧ c ≠ '}')
    (ha : ∀ c ∈ arg, c ≠ '{' ∧ c ≠ '}') :
    ∀ c ∈ name ++ ':' :: arg, c ≠ '{' ∧ c ≠ '}' := by
  intro c hc
  rcases List.mem_append.1 hc with h | h
  · exact hn c h
  · rcases List.mem_cons.1 h with rfl | h
    · exact ⟨by decide, by decide⟩
    · exact ha c h

/-- The nine names the original claim C1 lists, minus `date`. -/
def noArgColonNames : List (List Char) :=
  ["artist".toList, "albumArtist".toList, "album".toList, "title".toList,
    "filename".toList, "volume".toList, "songPosition".toList, "queueLength".toList]

/-- C1 (amended): a placeholder whose name is one of artist, albumArtist,
album, title, filename, volume, songPosition or queueLength with an
argument supplied after the colon fails with `RedundantFormat` carrying
that name; but `date` with an argument does not fail — it parses
successfully to the bare `Date` placeholder, its argument silently
discarded. -/
theorem claim_C1_redundant_format (k : List Char → Bool) :
    (∀ name arg, name ∈ noArgColonNames → (∀ c ∈ arg, c ≠ '{' ∧ c ≠ '}') →
      parseFmt k ('{' :: (name ++ ':' :: arg) ++ ['}']) = .error (.RedundantFormat name)) ∧
    (∀ arg, (∀ c ∈ arg, c ≠ '{' ∧ c ≠ '}') →
      parseFmt k ('{' :: ("date".toList ++ ':' :: arg) ++ ['}']) = .ok [.Date]) := by
  constructor
  · intro name arg hmem harg
    simp only [noArgColonNames, List.mem_cons, List.not_mem_nil, or_false] at hmem
    rcases hmem with rfl | rfl | rfl | rfl | rfl | rfl | rfl | rfl <;>
      rw [parse_single _ (noDelim_spec (by decide) harg),
        resolveSpec_colon_notArg arg (by decide) (by decide)] <;> rfl
  · intro arg harg
    rw [parse_single _ (noDelim_spec (by decide) harg), resolveSpec_date_colon]
    rfl

/-- Witness for C1's theorem at concrete inputs. -/
theorem claim_C1_redundant_format_witness :
    parseFmt (fun _ => true) ('{' :: ("artist".toList ++ ':' :: "x".toList) ++ ['}'])
      = .error (.RedundantFormat "artist".toList) ∧
    parseFmt (fun _ => true) ('{' :: ("date".toList ++ ':' :: "x".toList) ++ ['}'])
      = .ok [.Date] :=
  ⟨(claim_C1_redundant_format _).1 "artist".toList "x".toList (by decide) (by decide),
    (claim_C1_redundant_format _).2 "x".toList (by decide)⟩

/-- Counterexample to C1 as stated: parsing `{date:anything}` does not fail
with `RedundantFormat("date")` — it succeeds with the bare `Date` entry. -/
theorem claim_C1_counterexample :
    parseFmt (fun _ => true) ('{' :: "date:anything".toList ++ ['}']) = .ok [.Date] ∧
    parseFmt (fun _ => true) ('{' :: "date:anything".toList ++ ['}'])
      ≠ .error (.RedundantFormat "date".toList) := by
  exact ⟨rfl, by decide⟩

/-- C2 (amended): a placeholder whose name is not in the fixed name table
fails with `UnknownPlaceholder` carrying that name when no argument is
supplied; when an argument is supplied after a colon, every name outside
the argument branch (date, elapsedTime, totalTime and the five icons) —
known or unknown — instead fails with `RedundantFormat` carrying the name. -/
theorem claim_C2_unknown_placeholder (k : List Char → Bool) :
    (∀ spec, (∀ c ∈ spec, c ≠ '{' ∧ c ≠ '}') → ':' ∉ spec → spec ∉ nameTable →
      parseFmt k ('{' :: spec ++ ['}']) = .error (.UnknownPlaceholder spec)) ∧
    (∀ name arg, (∀ c ∈ name, c ≠ '{' ∧ c ≠ '}') → (∀ c ∈ arg, c ≠ '{' ∧ c ≠ '}') →
      ':' ∉ name → name ∉ argNames →
      parseFmt k ('{' :: (name ++ ':' :: arg) ++ ['}']) = .error (.RedundantFormat name)) := by
  constructor
  · intro spec hd hc hn
    rw [parse_single _ hd, resolveSpec_bare_unknown hc hn]
    rfl
  · intro name arg hdn hda hc hn
    rw [parse_single _ (noDelim_spec hdn hda), resolveSpec_colon_notArg arg hc hn]
    rfl

/-- Witness for C2's theorem at concrete inputs. -/
theorem claim_C2_unknown_placeholder_witness :
    parseFmt (fun _ => true) ('{' :: "artst".toList ++ ['}'])
      = .error (.UnknownPlaceholder "artst".toList) ∧
    parseFmt (fun _ => true) ('{' :: ("foo".toList ++ ':' :: "bar".toList) ++ ['}'])
      = .error (.RedundantFormat "foo".toList) :=
  ⟨(claim_C2_unknown_placeholder _).1 "artst".toList (by decide) (by decide) (by decide),
    (claim_C2_unknown_placeholder _).2 "foo".toList "bar".toList (by decide) (by decide)
      (by decide) (by decide)⟩

/-- Counterexample to C2 as stated: parsing `{foo:bar}` fails with
`RedundantFormat("foo")`, not with `UnknownPlaceholder("foo")`. -/
theorem claim_C2_counterexample :
    parseFmt (fun _ => true) ('{' :: "foo:bar".toList ++ ['}'])
      = .error (.RedundantFormat "foo".toList) ∧
    parseFmt (fun _ => true) ('{' :: "foo:bar".toList ++ ['}'])
      ≠ .error (.UnknownPlaceholder "foo".toList) := by
  exact ⟨rfl, by decide⟩

/-- C6: when a toggle placeholder's value is false and its `StatusIcons`
has no disabled character, rendering it emits the empty string — neither
the default placeholder text nor any pad spaces; when a disabled character
is configured, rendering emits that character followed by the pad count of
spaces. -/
theorem claim_C6_disabled_toggle (t : Toggle) (icons : StatusIconsSet)
    (fmtDur : List Char → MDuration → Option (List Char)) (song : Option Song)
    (status : Status) (dflt : List Char) (pad : Nat)
    (hval : Toggle.value status t = false) :
    ((Toggle.iconsOf icons t).disabled = none →
      formatFmt icons fmtDur song status dflt [t.ph pad] = .ok []) ∧
    (∀ c, (Toggle.iconsOf icons t).disabled = some c →
      formatFmt icons fmtDur song status dflt [t.ph pad]
        = .ok (c :: List.replicate pad ' ')) := by
  cases t <;>
    simp only [Toggle.value] at hval <;>
    constructor <;>
    · intros
      simp_all [formatFmt, formatPh, phGet, Toggle.ph, Toggle.iconsOf,
        StatusIconsSet.writeBool, StatusIcons.writeIcon, StatusIcons.getIcon]

/-- Witness for C6's theorem at concrete inputs: a disabled consume toggle
with no disabled icon renders to nothing, one with disabled icon `'x'`
renders to the icon plus two pad spaces. -/
theorem claim_C6_disabled_toggle_witness :
    formatFmt ⟨⟨'>', '|', '.'⟩, ⟨'c', none⟩, ⟨'r', none⟩, ⟨'p', none⟩, ⟨'s', none⟩⟩
      (fun _ _ => none) none
      ⟨0, none, none, none, 0, .stop, false, false, false, false⟩
      "N/A".toList [Toggle.ph .consume 2] = .ok [] ∧
    formatFmt ⟨⟨'>', '|', '.'⟩, ⟨'c', some 'x'⟩, ⟨'r', none⟩, ⟨'p', none⟩, ⟨'s', none⟩⟩
      (fun _ _ => none) none
      ⟨0, none, none, none, 0, .stop, false, false, false, false⟩
      "N/A".toList [Toggle.ph .consume 2] = .ok ['x', ' ', ' '] :=
  ⟨(claim_C6_disabled_toggle .consume
      ⟨⟨'>', '|', '.'⟩, ⟨'c', none⟩, ⟨'r', none⟩, ⟨'p', none⟩, ⟨'s', none⟩⟩
      (fun _ _ => none) none ⟨0, none, none, none, 0, .stop, false, false, false, false⟩
      "N/A".toList 2 rfl).1 rfl,
    (claim_C6_disabled_toggle .consume
      ⟨⟨'>', '|', '.'⟩, ⟨'c', some 'x'⟩, ⟨'r', none⟩, ⟨'p', none⟩, ⟨'s', none⟩⟩
      (fun _ _ => none) none ⟨0, none, none, none, 0, .stop, false, false, false, false⟩
      "N/A".toList 2 rfl).2 'x' rfl⟩

/-- C7: rendering any of the nine optional-valued placeholders against a
snapshot in which the corresponding field is absent emits exactly the
configured default text. -/
theorem claim_C7_absent_default (o : OptPh) (pat : List Char) (icons : StatusIconsSet)
    (fmtDur : List Char → MDuration → Option (List Char)) (song : Option Song)
    (status : Status) (dflt : List Char) (h : OptPh.absent song status o) :
    formatFmt icons fmtDur song status dflt [o.toPh pat] = .ok dflt := by
  cases o <;> simp only [OptPh.absent] at h
  case artist => cases song <;> simp_all [formatFmt, formatPh, phGet, OptPh.toPh]
  case title => cases song <;> simp_all [formatFmt, formatPh, phGet, OptPh.toPh]
  all_goals simp_all [formatFmt, formatPh, phGet, OptPh.toPh]

/-- Witness for C7's theorem at a concrete input: an absent artist renders
to the default text. -/
theorem claim_C7_absent_default_witness :
    formatFmt ⟨⟨'>', '|', '.'⟩, ⟨'c', none⟩, ⟨'r', none⟩, ⟨'p', none⟩, ⟨'s', none⟩⟩
      (fun _ _ => none)
      (some ⟨none, some "T".toList, "f.mp3".toList, []⟩)
      ⟨0, none, none, none, 0, .stop, false, false, false, false⟩
      "N/A".toList [OptPh.toPh [] .artist] = .ok "N/A".toList :=
  claim_C7_absent_default .artist [] _ _ _ _ "N/A".toList rfl

/-- A section is unchanged exactly when every placeholder of its program
resolves to the same value against both snapshots. -/
theorem sectionChanged_eq_false_iff (fmt : List Ph) (oldSong : Option Song)
    (oldStatus : Status) (newSong : Option Song) (newStatus : Status) :
    sectionChanged fmt oldSong oldStatus newSong newStatus = false ↔
      ∀ ph ∈ fmt, phGet ph oldSong oldStatus = phGet ph newSong newStatus := by
  simp [sectionChanged, List.any_eq_false]

/-- A section is changed exactly when some placeholder of its program
resolves to different values against the two snapshots. -/
theorem sectionChanged_eq_true_iff (fmt : List Ph) (oldSong : Option Song)
    (oldStatus : Status) (newSong : Option Song) (newStatus : Status) :
    sectionChanged fmt oldSong oldStatus newSong newStatus = true ↔
      ∃ ph ∈ fmt, phGet ph oldSong oldStatus ≠ phGet ph newSong newStatus := by
  simp [sectionChanged, List.any_eq_true]

/-- C8: for each of the three sections independently, if every placeholder
of that section's program resolves equally against the old and the new
snapshot, the tick reports the section unchanged and leaves its buffer
untouched; if any placeholder resolves differently, the section is
reported changed and its buffer is replaced by a fresh render from the new
snapshot. -/
theorem claim_C8_section_rerender (icons : StatusIconsSet)
    (fmtDur : List Char → MDuration → Option (List Char)) (dflt : List Char)
    (preFmt sufFmt runFmt : List Ph) (oldSong : Option Song) (oldStatus : Status)
    (newSong : Option Song) (newStatus : Status) (preBuf sufBuf runBuf : List Char)
    (res : TickResult)
    (h : mpdGet icons fmtDur dflt preFmt sufFmt runFmt oldSong oldStatus
      newSong newStatus preBuf sufBuf runBuf = .ok res) :
    (((∀ ph ∈ preFmt, phGet ph oldSong oldStatus = phGet ph newSong newStatus) →
        res.preChanged = false ∧ res.preBuf = preBuf) ∧
      ((∃ ph ∈ preFmt, phGet ph oldSong oldStatus ≠ phGet ph newSong newStatus) →
        res.preChanged = true ∧
          formatFmt icons fmtDur newSong newStatus dflt preFmt = .ok res.preBuf)) ∧
    (((∀ ph ∈ sufFmt, phGet ph oldSong oldStatus = phGet ph newSong newStatus) →
        res.sufChanged = false ∧ res.sufBuf = sufBuf) ∧
      ((∃ ph ∈ sufFmt, phGet ph oldSong oldStatus ≠ phGet ph newSong newStatus) →
        res.sufChanged = true ∧
          formatFmt icons fmtDur newSong newStatus dflt sufFmt = .ok res.sufBuf)) ∧
    (((∀ ph ∈ runFmt, phGet ph oldSong oldStatus = phGet ph newSong newStatus) →
        res.runChanged = false ∧ res.runBuf = runBuf) ∧
      ((∃ ph ∈ runFmt, phGet ph oldSong oldStatus ≠ phGet ph newSong newStatus) →
        res.runChanged = true ∧
          formatFmt icons fmtDur newSong newStatus dflt runFmt = .ok res.runBuf)) := by
  simp only [mpdGet] at h
  rcases hP : (if sectionChanged preFmt oldSong oldStatus newSong newStatus then
      formatFmt icons fmtDur newSong newStatus dflt preFmt else .ok preBuf) with eP | preB <;>
    rw [hP] at h
  · cases h
  rcases hS : (if sectionChanged sufFmt oldSong oldStatus newSong newStatus then
      formatFmt icons fmtDur newSong newStatus dflt sufFmt else .ok sufBuf) with eS | sufB <;>
    rw [hS] at h
  · cases h
  rcases hR : (if sectionChanged runFmt oldSong oldStatus newSong newStatus then
      formatFmt icons fmtDur newSong newStatus dflt runFmt else .ok runBuf) with eR | runB <;>
    rw [hR] at h
  · cases h
  obtain rfl := (Except.ok.inj h).symm
  refine ⟨⟨?_, ?_⟩, ⟨?_, ?_⟩, ?_, ?_⟩
  · intro hall
    have hc := (sectionChanged_eq_false_iff preFmt _ _ _ _).2 hall
    rw [hc, if_neg (by simp)] at hP
    exact ⟨hc, (Except.ok.inj hP).symm⟩
  · intro hsome
    have hc := (sectionChanged_eq_true_iff preFmt _ _ _ _).2 hsome
    rw [hc, if_pos rfl] at hP
    exact ⟨hc, hP⟩
  · intro hall
    have hc := (sectionChanged_eq_false_iff sufFmt _ _ _ _).2 hall
    rw [hc, if_neg (by simp)] at hS
    exact ⟨hc, (Except.ok.inj hS).symm⟩
  · intro hsome
    have hc := (sectionChanged_eq_true_iff sufFmt _ _ _ _).2 hsome
    rw [hc, if_pos rfl] at hS
    exact ⟨hc, hS⟩
  · intro hall
    have hc := (sectionChanged_eq_false_iff runFmt _ _ _ _).2 hall
    rw [hc, if_neg (by simp)] at hR
    exact ⟨hc, (Except.ok.inj hR).symm⟩
  · intro hsome
    have hc := (sectionChanged_eq_true_iff runFmt _ _ _ _).2 hsome
    rw [hc, if_pos rfl] at hR
    exact ⟨hc, hR⟩

/-- Witness for C8's theorem: with a volume placeholder in the first
section (volume changed 0 to 5) and a queue-length placeholder in the
second (unchanged 7), the tick re-renders the first buffer and leaves the
second untouched. -/
theorem claim_C8_section_rerender_witness :
    (mpdGet ⟨⟨'>', '|', '.'⟩, ⟨'c', none⟩, ⟨'r', none⟩, ⟨'p', none⟩, ⟨'s', none⟩⟩
        (fun _ _ => none) [] [Ph.Volume] [Ph.QueueLength] [] none
        ⟨0, none, none, none, 7, .stop, false, false, false, false⟩ none
        ⟨5, none, none, none, 7, .stop, false, false, false, false⟩
        "a".toList "b".toList "c".toList).map (fun r => (r.preChanged, r.preBuf))
      = .ok (true, ['5']) ∧
    (mpdGet ⟨⟨'>', '|', '.'⟩, ⟨'c', none⟩, ⟨'r', none⟩, ⟨'p', none⟩, ⟨'s', none⟩⟩
        (fun _ _ => none) [] [Ph.Volume] [Ph.QueueLength] [] none
        ⟨0, none, none, none, 7, .stop, false, false, false, false⟩ none
        ⟨5, none, none, none, 7, .stop, false, false, false, false⟩
        "a".toList "b".toList "c".toList).map (fun r => (r.sufChanged, r.sufBuf))
      = .ok (false, "b".toList) := by
  have h := claim_C8_section_rerender
    ⟨⟨'>', '|', '.'⟩, ⟨'c', none⟩, ⟨'r', none⟩, ⟨'p', none⟩, ⟨'s', none⟩⟩
    (fun _ _ => none) [] [Ph.Volume] [Ph.QueueLength] [] none
    ⟨0, none, none, none, 7, .stop, false, false, false, false⟩ none
    ⟨5, none, none, none, 7, .stop, false, false, false, false⟩
    "a".toList "b".toList "c".toList
    ⟨['5'], "b".toList, "c".toList, true, false, false, none,
      ⟨5, none, none, none, 7, .stop, false, false, false, false⟩⟩ (by decide)
  obtain ⟨hpre, htrue⟩ := h.1.2 ⟨Ph.Volume, by decide, by decide⟩
  obtain ⟨hsuf, hbuf⟩ := h.2.1.1 (by decide)
  exact ⟨by decide, by decide⟩

/-- C9: after every successful tick the stored snapshot equals the newly
fetched snapshot, unconditionally — even when no section changed. -/
theorem claim_C9_snapshot_replaced (icons : StatusIconsSet)
    (fmtDur : List Char → MDuration → Option (List Char)) (dflt : List Char)
    (preFmt sufFmt runFmt : List Ph) (oldSong : Option Song) (oldStatus : Status)
    (newSong : Option Song) (newStatus : Status) (preBuf sufBuf runBuf : List Char)
    (res : TickResult)
    (h : mpdGet icons fmtDur dflt preFmt sufFmt runFmt oldSong oldStatus
      newSong newStatus preBuf sufBuf runBuf = .ok res) :
    res.song = newSong ∧ res.status = newStatus := by
  simp only [mpdGet] at h
  rcases hP : (if sectionChanged preFmt oldSong oldStatus newSong newStatus then
      formatFmt icons fmtDur newSong newStatus dflt preFmt else .ok preBuf) with eP | preB <;>
    rw [hP] at h
  · cases h
  rcases hS : (if sectionChanged sufFmt oldSong oldStatus newSong newStatus then
      formatFmt icons fmtDur newSong newStatus dflt sufFmt else .ok sufBuf) with eS | sufB <;>
    rw [hS] at h
  · cases h
  rcases hR : (if sectionChanged runFmt oldSong oldStatus newSong newStatus then
      formatFmt icons fmtDur newSong newStatus dflt runFmt else .ok runBuf) with eR | runB <;>
    rw [hR] at h
  · cases h
  obtain rfl := (Except.ok.inj h).symm
  exact ⟨rfl, rfl⟩

/-- Witness for C9's theorem at a concrete input where no section changed:
the stored snapshot is still replaced by the new one. -/
theorem claim_C9_snapshot_replaced_witness :
    (mpdGet ⟨⟨'>', '|', '.'⟩, ⟨'c', none⟩, ⟨'r', none⟩, ⟨'p', none⟩, ⟨'s', none⟩⟩
        (fun _ _ => none) [] [Ph.Volume] [] [] none
        ⟨4, none, none, none, 7, .stop, false, false, false, false⟩
        (some ⟨some "A".toList, none, "f".toList, []⟩)
        ⟨4, some ⟨9, 0⟩, none, none, 7, .play, true, false, false, false⟩
        "a".toList "b".toList "c".toList).map (fun r => (r.preChanged, r.song, r.status))
      = .ok (false, some ⟨some "A".toList, none, "f".toList, []⟩,
          ⟨4, some ⟨9, 0⟩, none, none, 7, .play, true, false, false, false⟩) := by
  have h := claim_C9_snapshot_replaced
    ⟨⟨'>', '|', '.'⟩, ⟨'c', none⟩, ⟨'r', none⟩, ⟨'p', none⟩, ⟨'s', none⟩⟩
    (fun _ _ => none) [] [Ph.Volume] [] [] none
    ⟨4, none, none, none, 7, .stop, false, false, false, false⟩
    (some ⟨some "A".toList, none, "f".toList, []⟩)
    ⟨4, some ⟨9, 0⟩, none, none, 7, .play, true, false, false, false⟩
    "a".toList "b".toList "c".toList
    ⟨"a".toList, "b".toList, "c".toList, false, false, false,
      some ⟨some "A".toList, none, "f".toList, []⟩,
      ⟨4, some ⟨9, 0⟩, none, none, 7, .play, true, false, false, false⟩⟩ (by decide)
  exact by decide

/-- Is this entry a literal (`Placeholder::String`) entry? -/
def Ph.isLit : Ph → Bool
  | .Str _ => true
  | _ => false

theorem scanFmt_closeNil {k : List Char → Bool} (raw : List Char) :
    scanFmt k raw ['}'] = .error .UnmatchedParenthesis := rfl

theorem scanFmt_openNil {k : List Char → Bool} (raw : List Char) :
    scanFmt k raw ['{'] = .error .UnmatchedParenthesis := rfl

theorem scanBody_nil {k : List Char → Bool} (done : List Ph) (spec : List Char) :
    scanBody k done spec [] = .error .UnmatchedParenthesis := rfl

theorem scanBody_open {k : List Char → Bool} (done : List Ph) (spec r : List Char) :
    scanBody k done spec ('{' :: r) = .error .UnmatchedParenthesis := rfl

/-- Every placeholder a resolution result can hold is a non-literal. -/
def GoodExc (x : Except PErr Ph) : Prop := ∀ ph, x = .ok ph → ph.isLit = false

theorem goodExc_error {e : PErr} : GoodExc (.error e) := fun _ h => by cases h

theorem goodExc_ok {ph : Ph} (h : ph.isLit = false) : GoodExc (.ok ph) := by
  intro ph' he
  obtain rfl := Except.ok.inj he
  exact h

theorem goodExc_ite (c : Prop) [Decidable c] {x y : Except PErr Ph}
    (hx : GoodExc x) (hy : GoodExc y) : GoodExc (if c then x else y) := by
  by_cases h : c
  · rw [if_pos h]; exact hx
  · rw [if_neg h]; exact hy

/-- Resolution never produces a literal entry. -/
theorem resolveSpec_not_lit {k : List Char → Bool} {spec : List Char} {ph : Ph}
    (h : resolveSpec k spec = .ok ph) : ph.isLit = false := by
  have good : GoodExc (resolveSpec k spec) := by
    unfold resolveSpec
    rcases splitOnceColon spec with - | ⟨name, arg⟩
    · exact goodExc_ite _ (goodExc_ok rfl) (goodExc_ite _ (goodExc_ok rfl)
        (goodExc_ite _ (goodExc_ok rfl) (goodExc_ite _ (goodExc_ok rfl)
        (goodExc_ite _ (goodExc_ok rfl) (goodExc_ite _ (goodExc_ok rfl)
        (goodExc_ite _ (goodExc_ok rfl) (goodExc_ite _ (goodExc_ok rfl)
        (goodExc_ite _ (goodExc_ok rfl) (goodExc_ite _ (goodExc_ok rfl)
        (goodExc_ite _ (goodExc_ok rfl) (goodExc_ite _ (goodExc_ok rfl)
        (goodExc_ite _ (goodExc_ok rfl) (goodExc_ite _ (goodExc_ok rfl)
        (goodExc_ite _ (goodExc_ok rfl) (goodExc_ite _ (goodExc_ok rfl)
        goodExc_error)))))))))))))))
    · have hmatch : GoodExc (match parseUsize arg with
          | none => .error .PadParseError
          | some pad =>
            if name = "consumeIcon".toList then .ok (.ConsumeIcon pad)
            else if name = "repeatIcon".toList then .ok (.RepeatIcon pad)
            else if name = "stateIcon".toList then .ok (.StateIcon pad)
            else if name = "singleIcon".toList then .ok (.SingleIcon pad)
            else .ok (.RandomIcon pad)) := by
        rcases parseUsize arg with - | pad
        · exact goodExc_error
        · exact goodExc_ite _ (goodExc_ok rfl) (goodExc_ite _ (goodExc_ok rfl)
            (goodExc_ite _ (goodExc_ok rfl) (goodExc_ite _ (goodExc_ok rfl)
            (goodExc_ok rfl))))
      exact goodExc_ite _ (goodExc_ok rfl)
        (goodExc_ite _ (goodExc_ite _ (goodExc_ok rfl) goodExc_error)
        (goodExc_ite _ (goodExc_ite _ (goodExc_ok rfl) goodExc_error)
        (goodExc_ite _ hmatch goodExc_error)))
  exact good ph h

/-- No literal entry of the program is empty. -/
def NoEmptyLit (p : List Ph) : Prop := ∀ t, Ph.Str t ∈ p → t ≠ []

/-- No two adjacent entries of the program are both literals. -/
def NoAdjLit (p : List Ph) : Prop :=
  List.Chain' (fun a b => ¬(a.isLit = true ∧ b.isLit = true)) p

theorem wellLit_flush (raw : List Char) :
    NoEmptyLit (flushRaw raw) ∧ NoAdjLit (flushRaw raw) := by
  by_cases hr : raw = [] <;>
    simp [flushRaw, hr, NoEmptyLit, NoAdjLit]

theorem wellLit_append {raw : List Char} {ph : Ph} {rest : List Ph}
    (hlit : ph.isLit = false) (hne : NoEmptyLit rest) (hna : NoAdjLit rest) :
    NoEmptyLit (flushRaw raw ++ ph :: rest) ∧ NoAdjLit (flushRaw raw ++ ph :: rest) := by
  have hphne : ∀ t, ph ≠ Ph.Str t := by
    intro t ht
    rw [ht] at hlit
    exact absurd hlit (by simp [Ph.isLit])
  have hcons : NoEmptyLit (ph :: rest) ∧ NoAdjLit (ph :: rest) := by
    constructor
    · intro t ht
      rcases List.mem_cons.1 ht with he | hm
      · exact absurd he.symm (hphne t)
      · exact hne t hm
    · exact List.chain'_cons'.2 ⟨fun b _ => by simp [hlit], hna⟩
  by_cases hr : raw = []
  · simpa [flushRaw, hr] using hcons
  · refine ⟨?_, ?_⟩
    · intro t ht
      rcases List.mem_append.1 ht with hm | hm
      · simp only [flushRaw, if_neg hr, List.mem_singleton] at hm
        intro hteq
        exact hr (by simpa [hteq] using (Ph.Str.inj hm.symm))
      · exact hcons.1 t hm
    · simp only [NoAdjLit, flushRaw, if_neg hr, List.singleton_append]
      exact List.chain'_cons'.2 ⟨fun b hb => by
        rw [List.head?_cons] at hb
        cases hb
        simp [hlit], hcons.2⟩

/-- Decomposition of a successful body scan: the input splits at a closing
brace, the accumulated spec resolves, and the scan continues behind it. -/
theorem scanBody_ok_decomp {k : List Char → Bool} :
    ∀ {s : List Char} {done : List Ph} {spec : List Char} {prog : List Ph},
      scanBody k done spec s = .ok prog →
      ∃ ph r rest, prog = done ++ ph :: rest ∧ Ph.isLit ph = false ∧
        scanFmt k [] r = .ok rest ∧ r.length < s.length := by
  intro s
  induction s with
  | nil =>
    intro done spec prog h
    rw [scanBody_nil] at h
    cases h
  | cons c r ih =>
    intro done spec prog h
    by_cases hc1 : c = '{'
    · subst hc1
      rw [scanBody_open] at h
      cases h
    by_cases hc2 : c = '}'
    · subst hc2
      rw [scanBody_close] at h
      rcases hres : resolveSpec k spec with e | ph <;> rw [hres] at h
      · cases h
      · rcases hsc : scanFmt k [] r with e | rest <;> rw [hsc] at h <;>
          simp only [Except.map] at h
        · cases h
        · obtain rfl := (Except.ok.inj h).symm
          exact ⟨ph, r, rest, rfl, resolveSpec_not_lit hres, hsc, by simp⟩
    · rw [scanBody_litChar done spec r hc1 hc2] at h
      obtain ⟨ph, r', rest, rfl, hlit, hsc, hlen⟩ := ih h
      exact ⟨ph, r', rest, rfl, hlit, hsc, Nat.lt_succ_of_lt hlen⟩

/-- Bounded-length induction for the literal invariant of the scanner. -/
theorem scanFmt_ok_wellLit_aux :
    ∀ (n : Nat) (s : List Char), s.length ≤ n →
      ∀ (k : List Char → Bool) (raw : List Char) (prog : List Ph),
        scanFmt k raw s = .ok prog → NoEmptyLit prog ∧ NoAdjLit prog := by
  intro n
  induction n with
  | zero =>
    intro s hs k raw prog h
    rw [List.length_eq_zero.1 (Nat.le_zero.1 hs)] at h
    obtain rfl := (Except.ok.inj h).symm
    exact wellLit_flush raw
  | succ n ih =>
    intro s hs k raw prog h
    cases s with
    | nil =>
      obtain rfl := (Except.ok.inj h).symm
      exact wellLit_flush raw
    | cons c r =>
      simp only [List.length_cons, Nat.succ_le_succ_iff] at hs
      by_cases hc1 : c = '}'
      · subst hc1
        cases r with
        | nil =>
          rw [scanFmt_closeNil] at h
          cases h
        | cons c2 r2 =>
          by_cases hc2 : c2 = '}'
          · subst hc2
            exact ih r2 (Nat.le_of_succ_le hs) k (raw ++ ['}']) prog h
          · rw [scanFmt_closeOther raw r2 hc2] at h
            cases h
      by_cases hc2 : c = '{'
      · subst hc2
        cases r with
        | nil =>
          rw [scanFmt_openNil] at h
          cases h
        | cons c2 r2 =>
          by_cases hc3 : c2 = '{'
          · subst hc3
            exact ih r2 (Nat.le_of_succ_le hs) k (raw ++ ['{']) prog h
          · rw [scanFmt_openOther raw r2 hc3] at h
            obtain ⟨ph, r', rest, rfl, hlit, hsc, hlen⟩ := scanBody_ok_decomp h
            have hrest := ih r' (by
              simp only [List.length_cons] at hlen hs
              omega) k [] rest hsc
            exact wellLit_append hlit hrest.1 hrest.2
      · rw [scanFmt_litChar raw r hc2 hc1] at h
        exact ih r hs k (raw ++ [c]) prog h

/-- C10: on every input the parser accepts, the resulting program has no
empty literal entry and no two consecutive literal entries — literal text
is always flushed as a single maximal non-empty entry. -/
theorem claim_C10_literal_invariant (k : List Char → Bool) (s : List Char)
    (prog : List Ph) (h : parseFmt k s = .ok prog) :
    NoEmptyLit prog ∧ NoAdjLit prog :=
  scanFmt_ok_wellLit_aux s.length s (Nat.le_refl _) k [] prog h

/-- Witness for C10's theorem at a concrete input. -/
theorem claim_C10_literal_invariant_witness :
    NoEmptyLit [Ph.Str ['x'], Ph.Artist, Ph.Str ['y']] ∧
    NoAdjLit [Ph.Str ['x'], Ph.Artist, Ph.Str ['y']] :=
  claim_C10_literal_invariant (fun _ => true)
    ('x' :: '{' :: "artist".toList ++ ['}', 'y']) _ rfl

/-- Is this entry a bare, default-argument placeholder — one the parser
produces for a bare name and the serializer maps back to that name? -/
def isBareEntry : Ph → Bool
  | .Str _ => false
  | .Artist => true
  | .AlbumArtist => true
  | .Album => true
  | .Title => true
  | .Filename => true
  | .Date => true
  | .Volume => true
  | .SongPosition => true
  | .QueueLength => true
  | .ElapsedTime pat => pat == "%M:%S".toList
  | .TotalTime pat => pat == "%M:%S".toList
  | .StateIcon pad => pad == 0
  | .ConsumeIcon pad => pad == 0
  | .RandomIcon pad => pad == 0
  | .RepeatIcon pad => pad == 0
  | .SingleIcon pad => pad == 0

/-- Result of re-parsing a serialized program behind a pending literal
accumulator: the accumulator merges into a leading literal entry. -/
def mergeProg (raw : List Char) : List Ph → List Ph
  | .Str t :: p => .Str (raw ++ t) :: p
  | p => flushRaw raw ++ p

theorem mergeProg_nil (raw : List Char) : mergeProg raw [] = flushRaw raw := by
  simp [mergeProg]

theorem mergeProg_cons_lit (raw t : List Char) (p : List Ph) :
    mergeProg raw (.Str t :: p) = .Str (raw ++ t) :: p := rfl

theorem mergeProg_cons_notLit {q : Ph} (raw : List Char) (p : List Ph)
    (h : Ph.isLit q = false) : mergeProg raw (q :: p) = flushRaw raw ++ q :: p := by
  cases q <;> first
    | rfl
    | (exact absurd h (by simp [Ph.isLit]))

theorem mergeProg_empty_raw (p : List Ph) : mergeProg [] p = p := by
  rcases p with - | ⟨q, p⟩
  · simp [mergeProg, flushRaw]
  · cases q <;> simp [mergeProg, flushRaw]

/-- Scanning the re-escaped form of a literal char sequence accumulates
exactly that sequence. -/
theorem scanFmt_escape {k : List Char → Bool} (s : List Char) :
    ∀ raw rest, scanFmt k raw (escapeStr s ++ rest) = scanFmt k (raw ++ s) rest := by
  induction s with
  | nil => simp [escapeStr]
  | cons c s ih =>
    intro raw rest
    by_cases hc1 : c = '{'
    · subst hc1
      rw [show escapeStr ('{' :: s) ++ rest = '{' :: '{' :: (escapeStr s ++ rest) by
          simp [escapeStr, escapeChar]]
      rw [show scanFmt k raw ('{' :: '{' :: (escapeStr s ++ rest))
          = scanFmt k (raw ++ ['{']) (escapeStr s ++ rest) from rfl, ih]
      simp
    by_cases hc2 : c = '}'
    · subst hc2
      rw [show escapeStr ('}' :: s) ++ rest = '}' :: '}' :: (escapeStr s ++ rest) by
          simp [escapeStr, escapeChar]]
      rw [show scanFmt k raw ('}' :: '}' :: (escapeStr s ++ rest))
          = scanFmt k (raw ++ ['}']) (escapeStr s ++ rest) from rfl, ih]
      simp
    · rw [show escapeStr (c :: s) ++ rest = c :: (escapeStr s ++ rest) by
        simp [escapeStr, escapeChar, hc1, hc2]]
      rw [scanFmt_litChar raw _ hc1 hc2, ih]
      simp

/-- Scanning a braced known bare name emits its placeholder and continues
behind the closing brace. -/
theorem scanFmt_name {k : List Char → Bool} {raw rest : List Char} (nm : List Char)
    (ph : Ph) (hnd : ∀ c ∈ nm, c ≠ '{' ∧ c ≠ '}') (hne : nm ≠ [])
    (hres : resolveSpec k nm = .ok ph) :
    scanFmt k raw (('{' :: nm ++ ['}']) ++ rest)
      = (scanFmt k [] rest).map (fun l => flushRaw raw ++ ph :: l) := by
  rcases nm with - | ⟨c, nm'⟩
  · exact absurd rfl hne
  obtain ⟨hc1, -⟩ := hnd c (List.mem_cons_self c nm')
  rw [show ('{' :: (c :: nm') ++ ['}']) ++ rest = '{' :: c :: (nm' ++ '}' :: rest) by simp,
    scanFmt_openOther _ _ hc1,
    show c :: (nm' ++ '}' :: rest) = (c :: nm') ++ '}' :: rest from rfl,
    scanBody_noDelim _ [] _ hnd, List.nil_append, scanBody_close, hres]

/-- Scanning the canonical text of a bare entry emits that entry. -/
theorem scanFmt_phChars {k : List Char → Bool} {raw rest : List Char} {ph : Ph}
    (hb : isBareEntry ph = true) :
    scanFmt k raw (phChars ph ++ rest)
      = (scanFmt k [] rest).map (fun l => flushRaw raw ++ ph :: l) := by
  cases ph <;> first
    | exact Bool.noConfusion hb
    | (simp only [isBareEntry, beq_iff_eq] at hb
       try subst hb
       apply scanFmt_name <;> first | rfl | decide)

/-- Re-parsing the serialization of a program of literal and bare
default-argument entries, with no empty and no adjacent literals, yields
the program back (behind any pending accumulator). -/
theorem scanFmt_serialize {k : List Char → Bool} :
    ∀ (p : List Ph) (raw : List Char),
      (∀ ph ∈ p, Ph.isLit ph = true ∨ isBareEntry ph = true) →
      NoEmptyLit p → NoAdjLit p →
      scanFmt k raw (serializeFmt p) = .ok (mergeProg raw p) := by
  intro p
  induction p with
  | nil =>
    intro raw _ _ _
    rw [mergeProg_nil]
    rfl
  | cons ph p ih =>
    intro raw hgood hne hna
    have hgood' : ∀ q ∈ p, Ph.isLit q = true ∨ isBareEntry q = true :=
      fun q hq => hgood q (List.mem_cons_of_mem ph hq)
    have hne' : NoEmptyLit p := fun t ht => hne t (List.mem_cons_of_mem ph ht)
    have hna' : NoAdjLit p := (List.chain'_cons'.1 hna).2
    cases hl : Ph.isLit ph with
    | true =>
      obtain ⟨t, rfl⟩ : ∃ t, ph = .Str t := by
        cases ph <;> first
          | exact ⟨_, rfl⟩
          | exact Bool.noConfusion hl
      rw [show serializeFmt (.Str t :: p) = escapeStr t ++ serializeFmt p from rfl,
        scanFmt_escape, ih (raw ++ t) hgood' hne' hna', mergeProg_cons_lit]
      have hth : t ≠ [] := hne t (List.mem_cons_self _ _)
      rcases p with - | ⟨q, p'⟩
      · rw [mergeProg_nil]
        simp [flushRaw, hth]
      · have hq : Ph.isLit q = false := by
          have := List.chain'_cons.1 hna
          by_contra hq'
          exact this.1 ⟨hl, by simpa using hq'⟩
        rw [mergeProg_cons_notLit _ _ hq]
        simp [flushRaw, hth]
    | false =>
      have hb : isBareEntry ph = true := by
        rcases hgood ph (List.mem_cons_self _ _) with h | h
        · rw [h] at hl
          cases hl
        · exact h
      rw [show serializeFmt (ph :: p) = phChars ph ++ serializeFmt p from rfl,
        scanFmt_phChars hb, ih [] hgood' hne' hna', mergeProg_empty_raw,
        mergeProg_cons_notLit _ _ hl]
      rfl

/-- C4 (amended): for every program consisting only of literal entries and
bare default-argument placeholder entries, in which no literal entry is
empty and no two literal entries are adjacent (the invariant every parsed
program satisfies), serializing and re-parsing yields an equal program. -/
theorem claim_C4_parse_serialize (k : List Char → Bool) (p : List Ph)
    (hgood : ∀ ph ∈ p, Ph.isLit ph = true ∨ isBareEntry ph = true)
    (hne : NoEmptyLit p) (hna : NoAdjLit p) :
    parseFmt k (serializeFmt p) = .ok p := by
  rw [parseFmt, scanFmt_serialize p [] hgood hne hna, mergeProg_empty_raw]

/-- Witness for C4's theorem at a concrete program. -/
theorem claim_C4_parse_serialize_witness :
    parseFmt (fun _ => true)
      (serializeFmt [Ph.Str ['}', 'a'], Ph.Artist, Ph.ElapsedTime "%M:%S".toList,
        Ph.Str ['{']])
      = .ok [Ph.Str ['}', 'a'], Ph.Artist, Ph.ElapsedTime "%M:%S".toList, Ph.Str ['{']] :=
  claim_C4_parse_serialize (fun _ => true)
    [Ph.Str ['}', 'a'], Ph.Artist, Ph.ElapsedTime "%M:%S".toList, Ph.Str ['{']]
    (by decide)
    (by
      intro t ht
      simp only [NoEmptyLit, List.mem_cons, List.not_mem_nil, or_false] at ht ⊢
      rcases ht with ht | ht | ht | ht <;> simp_all)
    (by simp [NoAdjLit, List.chain'_cons, List.chain'_singleton, Ph.isLit])

/-- Counterexample to C4 as stated: the empty-literal program
`[Str ""]` (a program of literal entries only) serializes to the empty
string, which parses back to the empty program, not to `[Str ""]`. -/
theorem claim_C4_counterexample :
    parseFmt (fun _ => true) (serializeFmt [Ph.Str []]) = .ok [] ∧
    ([] : List Ph) ≠ [Ph.Str []] := by
  exact ⟨rfl, by decide⟩

/-- The sixteen known bare placeholder names. -/
inductive BName where
  | album : BName
  | albumArtist : BName
  | artist : BName
  | consumeIcon : BName
  | date : BName
  | elapsedTime : BName
  | filename : BName
  | queueLength : BName
  | randomIcon : BName
  | repeatIcon : BName
  | singleIcon : BName
  | songPosition : BName
  | stateIcon : BName
  | title : BName
  | totalTime : BName
  | volume : BName
deriving DecidableEq, Repr

/-- The text of a bare name. -/
def BName.chars : BName → List Char
  | .album => "album".toList
  | .albumArtist => "albumArtist".toList
  | .artist => "artist".toList
  | .consumeIcon => "consumeIcon".toList
  | .date => "date".toList
  | .elapsedTime => "elapsedTime".toList
  | .filename => "filename".toList
  | .queueLength => "queueLength".toList
  | .randomIcon => "randomIcon".toList
  | .repeatIcon => "repeatIcon".toList
  | .singleIcon => "singleIcon".toList
  | .songPosition => "songPosition".toList
  | .stateIcon => "stateIcon".toList
  | .title => "title".toList
  | .totalTime => "totalTime".toList
  | .volume => "volume".toList

/-- The default-argument entry the parser produces for a bare name. -/
def BName.ph : BName → Ph
  | .album => .Album
  | .albumArtist => .AlbumArtist
  | .artist => .Artist
  | .consumeIcon => .ConsumeIcon 0
  | .date => .Date
  | .elapsedTime => .ElapsedTime "%M:%S".toList
  | .filename => .Filename
  | .queueLength => .QueueLength
  | .randomIcon => .RandomIcon 0
  | .repeatIcon => .RepeatIcon 0
  | .singleIcon => .SingleIcon 0
  | .songPosition => .SongPosition
  | .stateIcon => .StateIcon 0
  | .title => .Title
  | .totalTime => .TotalTime "%M:%S".toList
  | .volume => .Volume

/-- Tokens of the round-trip class of template strings: escaped braces,
other literal characters, and known bare placeholder names with no
arguments. -/
inductive Tok where
  | escO : Tok
  | escC : Tok
  | lit : Char → Tok
  | name : BName → Tok
deriving DecidableEq, Repr

/-- The text of a token. -/
def renderTok : Tok → List Char
  | .escO => ['{', '{']
  | .escC => ['}', '}']
  | .lit c => [c]
  | .name b => '{' :: b.chars ++ ['}']

/-- The template string assembled from a token list. -/
def renderToks : List Tok → List Char
  | [] => []
  | t :: ts => renderTok t ++ renderToks ts

/-- A well-formed token list: its plain literal characters are not
braces (brace literals are written as the escape tokens). -/
def WFtoks (ts : List Tok) : Prop := ∀ c, Tok.lit c ∈ ts → c ≠ '{' ∧ c ≠ '}'

/-- The program the parser produces for a token list, behind a pending
literal accumulator. -/
def progToks (raw : List Char) : List Tok → List Ph
  | [] => flushRaw raw
  | .escO :: ts => progToks (raw ++ ['{']) ts
  | .escC :: ts => progToks (raw ++ ['}']) ts
  | .lit c :: ts => progToks (raw ++ [c]) ts
  | .name b :: ts => flushRaw raw ++ b.ph :: progToks [] ts

theorem bname_noDelim (b : BName) : ∀ c ∈ b.chars, c ≠ '{' ∧ c ≠ '}' := by
  cases b <;> decide

theorem bname_ne_nil (b : BName) : b.chars ≠ [] := by
  cases b <;> decide

theorem bname_resolve {k : List Char → Bool} (b : BName) :
    resolveSpec k b.chars = .ok b.ph := by
  cases b <;> rfl

theorem bname_phChars (b : BName) : phChars b.ph = '{' :: b.chars ++ ['}'] := by
  cases b <;> rfl

/-- Parsing the text of a well-formed token list succeeds with the
token-by-token program. -/
theorem scanFmt_renderToks {k : List Char → Bool} :
    ∀ (ts : List Tok), WFtoks ts → ∀ raw,
      scanFmt k raw (renderToks ts) = .ok (progToks raw ts) := by
  intro ts
  induction ts with
  | nil => intro _ raw; rfl
  | cons t ts ih =>
    intro hwf raw
    have hwf' : WFtoks ts := fun c hc => hwf c (List.mem_cons_of_mem t hc)
    cases t with
    | escO => exact ih hwf' (raw ++ ['{'])
    | escC => exact ih hwf' (raw ++ ['}'])
    | lit c =>
      obtain ⟨h1, h2⟩ := hwf c (List.mem_cons_self _ _)
      rw [show renderToks (.lit c :: ts) = c :: renderToks ts from rfl,
        scanFmt_litChar _ _ h1 h2, ih hwf' (raw ++ [c])]
      rfl
    | name b =>
      rw [show renderToks (.name b :: ts) = ('{' :: b.chars ++ ['}']) ++ renderToks ts
          from rfl,
        scanFmt_name b.chars b.ph (bname_noDelim b) (bname_ne_nil b) (bname_resolve b),
        ih hwf' []]
      rfl

theorem escapeStr_append (a b : List Char) :
    escapeStr (a ++ b) = escapeStr a ++ escapeStr b := by
  induction a with
  | nil => rfl
  | cons c a ih => simp [escapeStr, ih]

theorem serializeFmt_append (a b : List Ph) :
    serializeFmt (a ++ b) = serializeFmt a ++ serializeFmt b := by
  induction a with
  | nil => rfl
  | cons ph a ih => simp [serializeFmt, ih]

theorem serialize_flush (raw : List Char) :
    serializeFmt (flushRaw raw) = escapeStr raw := by
  by_cases hr : raw = [] <;> simp [flushRaw, hr, serializeFmt, phChars, escapeStr]

/-- Serializing the token-by-token program reproduces the accumulator's
re-escaped text followed by the token text. -/
theorem serialize_progToks :
    ∀ (ts : List Tok), WFtoks ts → ∀ raw,
      serializeFmt (progToks raw ts) = escapeStr raw ++ renderToks ts := by
  intro ts
  induction ts with
  | nil =>
    intro _ raw
    rw [show progToks raw [] = flushRaw raw from rfl, serialize_flush]
    simp [renderToks]
  | cons t ts ih =>
    intro hwf raw
    have hwf' : WFtoks ts := fun c hc => hwf c (List.mem_cons_of_mem t hc)
    cases t with
    | escO =>
      rw [show progToks raw (.escO :: ts) = progToks (raw ++ ['{']) ts from rfl,
        ih hwf' _, escapeStr_append]
      simp [renderToks, renderTok, escapeStr, escapeChar]
    | escC =>
      rw [show progToks raw (.escC :: ts) = progToks (raw ++ ['}']) ts from rfl,
        ih hwf' _, escapeStr_append]
      simp [renderToks, renderTok, escapeStr, escapeChar]
    | lit c =>
      obtain ⟨h1, h2⟩ := hwf c (List.mem_cons_self _ _)
      rw [show progToks raw (.lit c :: ts) = progToks (raw ++ [c]) ts from rfl,
        ih hwf' _, escapeStr_append]
      simp [renderToks, renderTok, escapeStr, escapeChar, h1, h2]
    | name b =>
      rw [show progToks raw (.name b :: ts) = flushRaw raw ++ b.ph :: progToks [] ts
          from rfl,
        serializeFmt_append, serialize_flush,
        show serializeFmt (b.ph :: progToks [] ts)
          = phChars b.ph ++ serializeFmt (progToks [] ts) from rfl,
        ih hwf' [], bname_phChars b]
      simp [renderToks, renderTok, escapeStr]

/-- C3: for every template string built only from escaped braces, other
literal characters and known bare placeholder names with no arguments,
parsing succeeds and serializing the parsed program returns exactly the
original string. -/
theorem claim_C3_round_trip (k : List Char → Bool) (ts : List Tok) (hwf : WFtoks ts) :
    (parseFmt k (renderToks ts)).map serializeFmt = .ok (renderToks ts) := by
  rw [parseFmt, scanFmt_renderToks ts hwf []]
  rw [show Except.map serializeFmt (Except.ok (progToks [] ts))
    = Except.ok (serializeFmt (progToks [] ts)) from rfl, serialize_progToks ts hwf []]
  rfl

/-- Witness for C3's theorem: the token list spelling out the template
string with an escaped brace, a bare artist placeholder and a literal. -/
theorem claim_C3_round_trip_witness :
    (parseFmt (fun _ => true)
        (renderToks [Tok.escO, Tok.name .artist, Tok.lit 'x', Tok.escC])).map serializeFmt
      = .ok (renderToks [Tok.escO, Tok.name .artist, Tok.lit 'x', Tok.escC]) :=
  claim_C3_round_trip (fun _ => true) [Tok.escO, Tok.name .artist, Tok.lit 'x', Tok.escC]
    (by
      intro c hc
      simp only [WFtoks, List.mem_cons, List.not_mem_nil, or_false] at hc
      rcases hc with hc | hc | hc | hc <;> simp_all)

/-- Resolution results never carry the structural `UnmatchedParenthesis`
error. -/
def NoUnm (x : Except PErr Ph) : Prop := x ≠ .error .UnmatchedParenthesis

theorem noUnm_ok {ph : Ph} : NoUnm (.ok ph) := by
  intro h
  cases h

theorem noUnm_error {e : PErr} (h : e ≠ .UnmatchedParenthesis) : NoUnm (.error e) := by
  intro he
  exact h (Except.error.inj he)

theorem noUnm_ite (c : Prop) [Decidable c] {x y : Except PErr Ph}
    (hx : NoUnm x) (hy : NoUnm y) : NoUnm (if c then x else y) := by
  by_cases h : c
  · rw [if_pos h]; exact hx
  · rw [if_neg h]; exact hy

/-- The spec resolver only fails with placeholder-level errors, never with
the scanner's `UnmatchedParenthesis`. -/
theorem resolveSpec_ne_unm {k : List Char → Bool} (spec : List Char) :
    resolveSpec k spec ≠ .error .UnmatchedParenthesis := by
  have good : NoUnm (resolveSpec k spec) := by
    unfold resolveSpec
    rcases splitOnceColon spec with - | ⟨name, arg⟩
    · exact noUnm_ite _ noUnm_ok (noUnm_ite _ noUnm_ok
        (noUnm_ite _ noUnm_ok (noUnm_ite _ noUnm_ok
        (noUnm_ite _ noUnm_ok (noUnm_ite _ noUnm_ok
        (noUnm_ite _ noUnm_ok (noUnm_ite _ noUnm_ok
        (noUnm_ite _ noUnm_ok (noUnm_ite _ noUnm_ok
        (noUnm_ite _ noUnm_ok (noUnm_ite _ noUnm_ok
        (noUnm_ite _ noUnm_ok (noUnm_ite _ noUnm_ok
        (noUnm_ite _ noUnm_ok (noUnm_ite _ noUnm_ok
        (noUnm_error (by simp)))))))))))))))))
    · have hmatch : NoUnm (match parseUsize arg with
          | none => .error .PadParseError
          | some pad =>
            if name = "consumeIcon".toList then .ok (.ConsumeIcon pad)
            else if name = "repeatIcon".toList then .ok (.RepeatIcon pad)
            else if name = "stateIcon".toList then .ok (.StateIcon pad)
            else if name = "singleIcon".toList then .ok (.SingleIcon pad)
            else .ok (.RandomIcon pad)) := by
        rcases parseUsize arg with - | pad
        · exact noUnm_error (by simp)
        · exact noUnm_ite _ noUnm_ok (noUnm_ite _ noUnm_ok
            (noUnm_ite _ noUnm_ok (noUnm_ite _ noUnm_ok noUnm_ok)))
      exact noUnm_ite _ noUnm_ok
        (noUnm_ite _ (noUnm_ite _ noUnm_ok (noUnm_error (by simp)))
        (noUnm_ite _ (noUnm_ite _ noUnm_ok (noUnm_error (by simp)))
        (noUnm_ite _ hmatch (noUnm_error (by simp)))))
  exact good

/-- The inputs on which the scanner fails with `UnmatchedParenthesis`: the
three error situations — a stray unescaped closing brace while no
placeholder is open (`strayCloseEnd`, `strayClose`), an opening brace
inside a placeholder body (`nestedOpen`), and the input ending inside an
open placeholder (`unterminated`) — closed under the parser's scanning
steps: a literal character, an escaped pair, and a placeholder whose body
resolves successfully. -/
inductive UnmatchedInput (k : List Char → Bool) : List Char → Prop where
  | strayCloseEnd : UnmatchedInput k ['}']
  | strayClose {c : Char} {r : List Char} (h : c ≠ '}') : UnmatchedInput k ('}' :: c :: r)
  | escClose {r : List Char} : UnmatchedInput k r → UnmatchedInput k ('}' :: '}' :: r)
  | escOpen {r : List Char} : UnmatchedInput k r → UnmatchedInput k ('{' :: '{' :: r)
  | litChar {c : Char} {r : List Char} (h1 : c ≠ '{') (h2 : c ≠ '}') :
      UnmatchedInput k r → UnmatchedInput k (c :: r)
  | unterminated {spec : List Char} (h : ∀ c ∈ spec, c ≠ '{' ∧ c ≠ '}') :
      UnmatchedInput k ('{' :: spec)
  | nestedOpen {spec r : List Char} (hne : spec ≠ [])
      (h : ∀ c ∈ spec, c ≠ '{' ∧ c ≠ '}') :
      UnmatchedInput k ('{' :: spec ++ '{' :: r)
  | phStep {spec : List Char} {ph : Ph} {r : List Char}
      (h : ∀ c ∈ spec, c ≠ '{' ∧ c ≠ '}') (hres : resolveSpec k spec = .ok ph) :
      UnmatchedInput k r → UnmatchedInput k ('{' :: spec ++ '}' :: r)

/-- Completeness: every situation of `UnmatchedInput` makes the scanner
fail with `UnmatchedParenthesis`, whatever literal text is pending. -/
theorem unmatchedInput_scanFmt {k : List Char → Bool} {s : List Char}
    (hu : UnmatchedInput k s) :
    ∀ raw, scanFmt k raw s = .error .UnmatchedParenthesis := by
  induction hu with
  | strayCloseEnd => exact fun raw => scanFmt_closeNil raw
  | strayClose h => exact fun raw => scanFmt_closeOther raw _ h
  | escClose _ ih => exact fun raw => ih (raw ++ ['}'])
  | escOpen _ ih => exact fun raw => ih (raw ++ ['{'])
  | litChar h1 h2 _ ih =>
    intro raw
    rw [scanFmt_litChar raw _ h1 h2]
    exact ih (raw ++ [_])
  | @unterminated spec h =>
    intro raw
    rcases spec with - | ⟨c, spec'⟩
    · exact scanFmt_openNil raw
    · obtain ⟨hc1, -⟩ := h c (List.mem_cons_self _ _)
      rw [scanFmt_openOther raw _ hc1,
        show c :: spec' = (c :: spec') ++ [] by simp,
        scanBody_noDelim _ [] [] h, scanBody_nil]
  | @nestedOpen spec r hne h =>
    intro raw
    rcases spec with - | ⟨c, spec'⟩
    · exact absurd rfl hne
    · obtain ⟨hc1, -⟩ := h c (List.mem_cons_self _ _)
      rw [show '{' :: (c :: spec') ++ '{' :: r = '{' :: c :: (spec' ++ '{' :: r) by simp,
        scanFmt_openOther raw _ hc1,
        show c :: (spec' ++ '{' :: r) = (c :: spec') ++ '{' :: r from rfl,
        scanBody_noDelim _ [] _ h, scanBody_open]
  | @phStep spec ph r h hres hprev ih =>
    intro raw
    rcases spec with - | ⟨c, spec'⟩
    · rw [show '{' :: [] ++ '}' :: r = '{' :: '}' :: r from rfl,
        scanFmt_openOther raw _ (by decide), scanBody_close, hres, ih []]
      rfl
    · obtain ⟨hc1, -⟩ := h c (List.mem_cons_self _ _)
      rw [show '{' :: (c :: spec') ++ '}' :: r = '{' :: c :: (spec' ++ '}' :: r) by simp,
        scanFmt_openOther raw _ hc1,
        show c :: (spec' ++ '}' :: r) = (c :: spec') ++ '}' :: r from rfl,
        scanBody_noDelim _ [] _ h, List.nil_append, scanBody_close, hres, ih []]
      rfl

/-- Decomposition of a failing body scan: either the body never closes
(running into the end or a nested opening brace over a delimiter-free
stretch), or it closes, resolves, and the scan fails further on. -/
theorem scanBody_err_decomp {k : List Char → Bool} :
    ∀ {s : List Char} {done : List Ph} {spec : List Char},
      scanBody k done spec s = .error .UnmatchedParenthesis →
      (∃ spec1, (∀ c ∈ spec1, c ≠ '{' ∧ c ≠ '}') ∧
        (s = spec1 ∨ ∃ r, s = spec1 ++ '{' :: r)) ∨
      (∃ spec1 r ph, (∀ c ∈ spec1, c ≠ '{' ∧ c ≠ '}') ∧ s = spec1 ++ '}' :: r ∧
        resolveSpec k (spec ++ spec1) = .ok ph ∧
        scanFmt k [] r = .error .UnmatchedParenthesis) := by
  intro s
  induction s with
  | nil =>
    intro done spec _
    exact Or.inl ⟨[], by simp, Or.inl rfl⟩
  | cons c r ih =>
    intro done spec h
    by_cases hc1 : c = '{'
    · subst hc1
      exact Or.inl ⟨[], by simp, Or.inr ⟨r, rfl⟩⟩
    by_cases hc2 : c = '}'
    · subst hc2
      rw [scanBody_close] at h
      rcases hres : resolveSpec k spec with e | ph <;> rw [hres] at h
      · exact absurd (hres.trans (congrArg _ (Except.error.inj h)))
          (resolveSpec_ne_unm spec)
      · refine Or.inr ⟨[], r, ph, by simp, rfl, by simpa using hres, ?_⟩
        exact (exceptMap_error _ _ _).1 h
    · rw [scanBody_litChar done spec r hc1 hc2] at h
      rcases ih h with ⟨spec1, hnd, heq | ⟨r2, heq⟩⟩ | ⟨spec1, r2, ph, hnd, heq, hres, herr⟩
      · exact Or.inl ⟨c :: spec1, by
          intro x hx
          rcases List.mem_cons.1 hx with rfl | hx
          · exact ⟨hc1, hc2⟩
          · exact hnd x hx, Or.inl (by rw [heq])⟩
      · exact Or.inl ⟨c :: spec1, by
          intro x hx
          rcases List.mem_cons.1 hx with rfl | hx
          · exact ⟨hc1, hc2⟩
          · exact hnd x hx, Or.inr ⟨r2, by rw [heq]; rfl⟩⟩
      · refine Or.inr ⟨c :: spec1, r2, ph, ?_, by rw [heq]; rfl, ?_, herr⟩
        · intro x hx
          rcases List.mem_cons.1 hx with rfl | hx
          · exact ⟨hc1, hc2⟩
          · exact hnd x hx
        · rw [show spec ++ c :: spec1 = (spec ++ [c]) ++ spec1 by simp]
          exact hres

/-- Soundness, by bounded-length induction: whenever the scanner fails
with `UnmatchedParenthesis`, the input is one of the `UnmatchedInput`
situations. -/
theorem scanFmt_err_unm_aux {k : List Char → Bool} :
    ∀ (n : Nat) (s : List Char), s.length ≤ n → ∀ (raw : List Char),
      scanFmt k raw s = .error .UnmatchedParenthesis → UnmatchedInput k s := by
  intro n
  induction n with
  | zero =>
    intro s hs raw h
    rw [List.length_eq_zero.1 (Nat.le_zero.1 hs)] at h ⊢
    cases h
  | succ n ih =>
    intro s hs raw h
    cases s with
    | nil => cases h
    | cons c r =>
      simp only [List.length_cons, Nat.succ_le_succ_iff] at hs
      by_cases hc1 : c = '}'
      · subst hc1
        cases r with
        | nil => exact .strayCloseEnd
        | cons c2 r2 =>
          by_cases hc2 : c2 = '}'
          · subst hc2
            exact .escClose (ih r2 (Nat.le_of_succ_le hs) (raw ++ ['}']) h)
          · exact .strayClose hc2
      by_cases hc2 : c = '{'
      · subst hc2
        cases r with
        | nil => exact @UnmatchedInput.unterminated k [] (by simp)
        | cons c2 r2 =>
          by_cases hc3 : c2 = '{'
          · subst hc3
            exact .escOpen (ih r2 (Nat.le_of_succ_le hs) (raw ++ ['{']) h)
          · rw [scanFmt_openOther raw r2 hc3] at h
            rcases scanBody_err_decomp h with
              ⟨spec1, hnd, heq | ⟨r3, heq⟩⟩ | ⟨spec1, r3, ph, hnd, heq, hres, herr⟩
            · rw [heq]
              exact .unterminated hnd
            · have hne : spec1 ≠ [] := by
                intro he
                rw [he] at heq
                exact hc3 (List.head_eq_of_cons_eq heq)
              rw [heq]
              exact .nestedOpen hne hnd
            · have hlen : r3.length ≤ n := by
                have h2 := congrArg List.length heq
                simp only [List.length_cons, List.length_append] at h2 hs
                omega
              rw [heq]
              exact .phStep hnd (by simpa using hres) (ih r3 hlen [] herr)
      · rw [scanFmt_litChar raw r hc2 hc1] at h
        exact .litChar hc2 hc1 (ih r hs (raw ++ [c]) h)

/-- C5: the parser fails with `UnmatchedParenthesis` (the source's name
for the spec's UnmatchedDelimiter) exactly on the inputs where the
left-to-right scan meets a stray unescaped closing brace with no
placeholder open, an opening brace inside a placeholder body, or the end
of input inside an open placeholder; in particular, parsing an artist
placeholder followed by a lone closing brace fails with it. -/
theorem claim_C5_unmatched_iff (k : List Char → Bool) :
    (∀ s, parseFmt k s = .error .UnmatchedParenthesis ↔ UnmatchedInput k s) ∧
    parseFmt k ('{' :: "artist".toList ++ ['}', '}']) = .error .UnmatchedParenthesis := by
  constructor
  · intro s
    constructor
    · exact fun h => scanFmt_err_unm_aux s.length s (Nat.le_refl _) [] h
    · exact fun h => unmatchedInput_scanFmt h []
  · rfl

end Mergneh
